import Mathlib

/-! Verification of the `impl` method-stub generator (github.com/josharian/impl).

This file gives a shallow embedding, in Lean 4, of the interface-resolution
and stub-generation core of `impl` (`impl.go` and the implemented-method
detector), and proves or refutes the frozen specification claims about it.

Modelling conventions:
* Go strings are Lean `String`s; byte indices coincide with character
  indices for the ASCII identifiers and references the tool manipulates.
* Go maps whose values are only ever consulted through key membership
  (`map[string]bool`, `map[string]string`) are modelled as association
  lists; membership and lookup are what the source consults.
* Fallible Go functions returning `(T, error)` become `Except String T`;
  functions calling `fatal` (process exit) become `Option`.
* Disk and `go/build` package lookup (`build.Import`, `goimports`) are
  modelled as explicit environment parameters: theorems quantify over them,
  which in particular expresses "no disk lookup is performed" as
  independence from the environment.
-/

namespace Impl

/-- Mirrors `type Param struct { Name, Type string }` of impl.go.
(`Type` is a Lean keyword, so the field is spelled `Typ`.) -/
structure Param where
  Name : String
  Typ : String
deriving DecidableEq

/-- Mirrors `type Func struct { Name string; Params, Res []Param;
Comments string }` of impl.go. -/
structure Func where
  Name : String
  Params : List Param
  Res : List Param
  Comments : String
deriving DecidableEq

/-- Mirrors `type Type struct { ID string; Params []string }` of
impl.go: a parsed interface reference such as `Foo[Bar, Baz]`. -/
structure TypeE where
  ID : String
  Params : List String
deriving DecidableEq

/-- A Go type expression, mirroring the subset of `ast.Expr` shapes that
interface method signatures in this tool's domain use: identifiers,
selectors (`pkg.Name`), pointers, arrays/slices, maps and channels.
(Function-typed fields are not needed by any claim.) -/
inductive Expr where
  | ident (name : String)
  | selector (x : Expr) (sel : String)
  | star (e : Expr)
  | arrayT (len : Option String) (elt : Expr)
  | mapT (key value : Expr)
  | chanBoth (value : Expr)
  | chanRecv (value : Expr)
  | chanSend (value : Expr)
deriving DecidableEq

/-- A field of a parameter/result list, mirroring `ast.Field`: a list of
names (empty for an anonymous field) sharing one type. -/
structure FieldE where
  names : List String
  ftype : Expr
deriving DecidableEq

/-- One entry of an interface body, mirroring the two shapes of
`ast.Field` inside an `ast.InterfaceType`: a named method
(`len(f.Names) > 0`, type is an `ast.FuncType`) or an embedded interface
reference (`len(f.Names) == 0`). The doc comment is the raw list of
comment texts (`f.Doc.List`), `none` when `f.Doc == nil`. -/
inductive IEntry where
  | method (name : String) (paramFields resultFields : List FieldE)
      (doc : Option (List String))
  | embed (t : Expr)
deriving DecidableEq

/-- The underlying type of a located type declaration: an interface
(`*ast.InterfaceType`, whose `Methods` list is `none` when nil) or
anything else. -/
inductive SpecType where
  | ifaceT (methods : Option (List IEntry))
  | otherT
deriving DecidableEq

/-- Mirrors `ast.TypeSpec` as consulted by `typeSpec` and
`matchTypeParams`: the declared name, the type-parameter field list
(`spec.TypeParams`, `none` when nil; each field carries its list of
names), and the declared underlying type. -/
structure TypeSpecE where
  name : String
  typeParams : Option (List (List String))
  specType : SpecType
deriving DecidableEq

/-- Embedding of `matchTypeParams` (impl.go:703-723).  Returns the
type-parameter binding as an association list in declaration order (the
Go code fills a `map[string]string` pairwise; declared type-parameter
names are unique within a declaration, so the association list carries
exactly the map's entries).  `none` models the `nil, false` return. -/
def matchTypeParams (tps : Option (List (List String))) (params : List String) :
    Option (List (String × String)) :=
  match tps with
  | none => some []
  | some fields =>
    let specParamNames := fields.flatMap id
    if specParamNames.length ≠ params.length then none
    else some (specParamNames.zip params)

/-- Embedding of the declaration scan of `typeSpec` (impl.go:675-694):
walk the package's type declarations in order; skip declarations whose
name differs or whose type parameters do not match; return the first
declaration that matches together with its binding. -/
def findTypeSpec (specs : List TypeSpecE) (typ : TypeE) :
    Option (TypeSpecE × List (String × String)) :=
  match specs with
  | [] => none
  | s :: rest =>
    if s.name = typ.ID then
      match matchTypeParams s.typeParams typ.Params with
      | some binding => some (s, binding)
      | none => findTypeSpec rest typ
    else findTypeSpec rest typ

/-- Embedding of `typeSpec` (impl.go:649-696) over an already-located and
parsed package (the `build.Import`/parse steps are the environment): on a
failed scan it reports `type %s not found in %s`. -/
def typeSpecE (path : String) (specs : List TypeSpecE) (typ : TypeE) :
    Except String (TypeSpecE × List (String × String)) :=
  match findTypeSpec specs typ with
  | some r => .ok r
  | none => .error ("type " ++ typ.ID ++ " not found in " ++ path)

/-- Embedding of `ast.Ident.IsExported`: the first character of the name is upper-case.
(Go consults `unicode.IsUpper` on the first rune; the identifiers this
tool handles are ASCII, for which `Char.isUpper` agrees.) -/
def isExported (s : String) : Bool :=
  match s.data with
  | [] => false
  | c :: _ => c.isUpper

/-- The identifier-rewriting walk of `fullType` (impl.go:739-756):
`ast.Inspect` visits every node of the type expression; an exported
identifier is rewritten to `pkgName.ident` whenever the receiver package
name differs from the declaring package name, and the walk does not
descend into selector expressions (which are therefore left untouched,
never doubly qualified).  The Go code mutates the AST in place; this is
the same rewrite as a pure transform. -/
def qualifyExpr (pkgName recvPkg : String) : Expr → Expr
  | .ident n =>
    if isExported n && recvPkg != pkgName then .ident (pkgName ++ "." ++ n)
    else .ident n
  | .selector x s => .selector x s
  | .star e => .star (qualifyExpr pkgName recvPkg e)
  | .arrayT len e => .arrayT len (qualifyExpr pkgName recvPkg e)
  | .mapT k v => .mapT (qualifyExpr pkgName recvPkg k) (qualifyExpr pkgName recvPkg v)
  | .chanBoth v => .chanBoth (qualifyExpr pkgName recvPkg v)
  | .chanRecv v => .chanRecv (qualifyExpr pkgName recvPkg v)
  | .chanSend v => .chanSend (qualifyExpr pkgName recvPkg v)

/-- Embedding of `gofmt` (impl.go:726-730): pretty-printing of a type expression, as
`go/printer` renders the shapes in `Expr`. -/
def gofmt : Expr → String
  | .ident n => n
  | .selector x s => gofmt x ++ "." ++ s
  | .star e => "*" ++ gofmt e
  | .arrayT none e => "[]" ++ gofmt e
  | .arrayT (some l) e => "[" ++ l ++ "]" ++ gofmt e
  | .mapT k v => "map[" ++ gofmt k ++ "]" ++ gofmt v
  | .chanBoth v => "chan " ++ gofmt v
  | .chanRecv v => "<-chan " ++ gofmt v
  | .chanSend v => "chan<- " ++ gofmt v

/-- Embedding of `fullType` (impl.go:739-756): qualify, then pretty-print. -/
def fullType (pkgName recvPkg : String) (e : Expr) : String :=
  gofmt (qualifyExpr pkgName recvPkg e)

/-- Lookup in the `typeParams map[string]string` binding, modelled as an
association list. -/
def lookupTP (tps : List (String × String)) (n : String) : Option String :=
  (tps.find? (fun kv => kv.1 == n)).map (fun kv => kv.2)

/-- Embedding of `Pkg.params` (impl.go:758-779): compute the field's type
string — a bare identifier that is a bound type parameter is substituted
with the bound concrete type text, anything else goes through `fullType`
— then produce one `Param` per declared name, or a single anonymous
`Param` when the field declares no names. -/
def params (pkgName recvPkg : String) (tps : List (String × String))
    (field : FieldE) : List Param :=
  let typ : String :=
    match field.ftype with
    | .ident n =>
      match lookupTP tps n with
      | some genType => genType
      | none => fullType pkgName recvPkg (.ident n)
    | t => fullType pkgName recvPkg t
  let ps := field.names.map (fun nm => Param.mk nm typ)
  if ps.isEmpty then [Param.mk "" typ] else ps

/-- Embedding of `flattenDocComment` (impl.go:951-968): concatenate the comment texts,
appending a newline after each `//`-style comment (second character `/`),
and guarantee a trailing newline. -/
def flattenDocComment (docList : List String) : String :=
  let s := docList.foldl
    (fun acc c =>
      let acc := acc ++ c
      if c.data.get? 1 = some '/' then acc ++ "\n" else acc) ""
  if s.endsWith "\n" then s else s ++ "\n"

/-- Embedding of `Pkg.funcsig` (impl.go:809-833), with the method field
flattened into its name, parameter fields, result fields and doc comment:
parameters whose reified name is empty are renamed to the blank
identifier `_`; result names are taken as-is; the doc comment is attached
only when comment emission is on and the field has a doc comment. -/
def funcsig (pkgName recvPkg : String) (tps : List (String × String))
    (name : String) (paramFields resultFields : List FieldE)
    (doc : Option (List String)) (comments : Bool) : Func :=
  let ps := paramFields.foldl
    (fun acc field =>
      acc ++ (params pkgName recvPkg tps field).map
        (fun p => if p.Name = "" then Param.mk "_" p.Typ else p)) []
  let rs := resultFields.foldl
    (fun acc field => acc ++ params pkgName recvPkg tps field) []
  let cmts :=
    if comments then
      match doc with
      | some d => flattenDocComment d
      | none => ""
    else ""
  Func.mk name ps rs cmts

/-- Embedding of `errorInterface` (impl.go:835-839): the built-in `error` interface's
single method, `Error() string`. -/
def errorInterface : List Func :=
  [Func.mk "Error" [] [Param.mk "" "string"] ""]

/-- The result of locating an interface reference: the declaring package
name, the type-parameter binding produced by `typeSpec`, and the located
declaration's underlying type.  An environment `String → String →
Except String Resolved` stands for the composition of `findInterface`
and `typeSpec` (impl.go:851-860) — reference string and source directory
in, located declaration out — abstracting the file system and
`go/build`. -/
structure Resolved where
  pkgName : String
  binding : List (String × String)
  specType : SpecType
deriving DecidableEq

/-- The method-collection loop of `funcs` (impl.go:872-887), with `rec`
standing for the recursive call on an embedded interface's fully
qualified reference: a named entry appends its reified signature; an
embedded entry appends the recursively resolved methods in place. -/
def funcsLoop (rec : String → Except String (List Func))
    (pkgName recvPkg : String) (binding : List (String × String))
    (comments : Bool) : List IEntry → List Func → Except String (List Func)
  | [], acc => .ok acc
  | .embed t :: rest, acc =>
    match rec (fullType pkgName recvPkg t) with
    | .error e => .error e
    | .ok embedded =>
      funcsLoop rec pkgName recvPkg binding comments rest (acc ++ embedded)
  | .method nm pfs rfs doc :: rest, acc =>
    funcsLoop rec pkgName recvPkg binding comments rest
      (acc ++ [funcsig pkgName recvPkg binding nm pfs rfs doc comments])

/-- Embedding of `funcs` (impl.go:844-888).  The `error` interface is
special-cased before any lookup; otherwise the reference is resolved
through the environment (`findInterface` + `typeSpec`), shape-checked
(`not an interface`, `empty interface`), and its entries are collected in
declaration order.  `fuel` bounds the embedding recursion depth: the Go
code recurses unboundedly on cyclic embeddings (a documented limitation),
which the embedding maps to an explicit error once fuel runs out. -/
def funcs (env : String → String → Except String Resolved) :
    Nat → String → String → String → Bool → Except String (List Func)
  | fuel, iface, srcDir, recvPkg, comments =>
    if iface = "error" then .ok errorInterface
    else
      match fuel with
      | 0 => .error ("embedding recursion limit exceeded: " ++ iface)
      | fuelMinus + 1 =>
        match env iface srcDir with
        | .error e => .error e
        | .ok r =>
          match r.specType with
          | .otherT => .error ("not an interface: " ++ iface)
          | .ifaceT none => .error ("empty interface: " ++ iface)
          | .ifaceT (some entries) =>
            funcsLoop (fun s => funcs env fuelMinus s srcDir recvPkg comments)
              r.pkgName recvPkg r.binding comments entries []

/-- Embedding of `strings.LastIndex` for a single-character needle, over the
character list of the string: the index of the last occurrence, `-1` when
absent (Go's convention, kept as `Int` so the source's index arithmetic
transcribes directly). -/
def lastIdx (cs : List Char) (c : Char) : Int :=
  match cs with
  | [] => -1
  | a :: rest =>
    let r := lastIdx rest c
    if r ≥ 0 then r + 1
    else if a = c then 0 else -1

/-- Split a character list at every separator character satisfying `p`,
keeping empty pieces (the behaviour of `strings.Split` for one-character
separators, and the basis for `strings.Fields`). -/
def splitPAux (p : Char → Bool) : List Char → List Char → List (List Char)
  | [], acc => [acc.reverse]
  | a :: rest, acc =>
    if p a then acc.reverse :: splitPAux p rest []
    else splitPAux p rest (a :: acc)

/-- Embedding of `strings.Split` for a one-character separator. -/
def splitChar (sep : Char) (cs : List Char) : List (List Char) :=
  splitPAux (fun c => c == sep) cs []

/-- Embedding of `strings.Fields`: split around runs of whitespace, dropping empty
pieces. -/
def goFields (s : String) : List String :=
  ((splitPAux (fun c => c.isWhitespace) s.data []).filter
    (fun x => x ≠ [])).map String.mk

/-- Embedding of `strings.TrimSpace`: drop leading and trailing whitespace. -/
def trimC (cs : List Char) : List Char :=
  ((cs.dropWhile (fun c => c.isWhitespace)).reverse.dropWhile
    (fun c => c.isWhitespace)).reverse

/-- Embedding of `findInterface` (impl.go:364-447).  `pt` stands for
`parseType` (the identifier part is handed to it verbatim) and `gi` for
the whole `goimports`-based branch taken when the input contains no `/`
(impl.go:395-446), which consults the file system; quantifying theorems
over `gi` expresses that the slash branch performs no package lookup.
The initial well-formedness check and the three slash-branch checks
transcribe the source literally. -/
def findInterface (pt : String → Except String TypeE)
    (gi : String → String → Except String (String × TypeE))
    (input srcDir : String) : Except String (String × TypeE) :=
  if (goFields input).length != 1 && !(input.data.contains '[') then
    .error ("couldn\x27t parse interface: " ++ input)
  else
    let slash : Int := lastIdx input.data '/'
    if slash > -1 then
      let dot : Int := lastIdx input.data '.'
      if slash + 1 = (input.length : Int) then
        .error ("interface name cannot end with a \x27/\x27 character: " ++ input)
      else if dot + 1 = (input.length : Int) then
        .error ("interface name cannot end with a \x27.\x27 character: " ++ input)
      else if (input.data.drop slash.toNat).count '.' = 0 then
        .error ("invalid interface name: " ++ input)
      else
        let path := String.mk (input.data.take dot.toNat)
        let id := String.mk (input.data.drop (dot.toNat + 1))
        match pt id with
        | .error e => .error e
        | .ok t => .ok (path, t)
    else
      gi input srcDir

/-- The receiver shapes `implementedFuncs` inspects, mirroring the
`ast.Expr` forms a Go method receiver can take: a bare identifier, a
pointer, or a generic instantiation (`ast.IndexExpr` /
`ast.IndexListExpr`, collapsed into one constructor since the detector
treats both alike by not handling either). -/
inductive RecvAst where
  | identR (name : String)
  | starR (x : RecvAst)
  | indexR (x : RecvAst) (idx : String)
deriving DecidableEq

/-- The `getReceiver` closure of `implementedFuncs` (README.md:44-61):
for a declaration with a receiver, a `*ast.StarExpr` whose operand is an
identifier yields that identifier, a bare identifier yields itself, and
every other shape (in particular a generic `T[X]` receiver) yields the
empty string. -/
def getReceiver (mrecv : Option RecvAst) : String :=
  match mrecv with
  | none => ""
  | some t =>
    match t with
    | .starR (.identR n) => n
    | .identR n => n
    | _ => ""

/-- A top-level function declaration as consulted by the detector:
its name and its receiver (`none` models `FuncDecl.Recv == nil`). -/
structure FuncDeclE where
  declName : String
  recv : Option RecvAst
deriving DecidableEq

/-- Embedding of `strings.TrimPrefix` with prefix `*`: strip one leading `*` if present. -/
def stripStar : List Char → List Char
  | '*' :: rest => rest
  | cs => cs

/-- Embedding of `getReceiverType` (README.md:97-116): trim surrounding
whitespace, split on single spaces; one part means a bare type, two parts
mean `name Type`; any other shape calls `fatal` (modelled as `none`);
finally strip one leading `*`. -/
def getReceiverType (recv : String) : Option String :=
  match splitChar ' ' (trimC recv.data) with
  | [p] => some (String.mk (stripStar p))
  | [_, p] => some (String.mk (stripStar p))
  | _ => none

/-- Embedding of `implementedFuncs` (README.md:30-93) over the already
parsed declarations of the target directory: a resolved method name is
marked implemented when some declaration carries that name and a receiver
whose `getReceiver` extraction equals the `getReceiverType` extraction of
the receiver argument.  The `implemented map[string]bool` is modelled by
the list of marked names (consulted only through membership). -/
def implementedFuncs (fns : List Func) (recv : String)
    (decls : List FuncDeclE) : Option (List String) :=
  match getReceiverType recv with
  | none => none
  | some recvType =>
    let want := fns.map Func.Name
    some (decls.foldl
      (fun impl d =>
        if getReceiver d.recv == recvType && want.contains d.declName then
          impl ++ [d.declName]
        else impl) [])

/-- One rendered parameter list, as the stub template's
`{{range .Params}}{{.Name}} {{.Type}}, {{end}}` emits it. -/
def renderParams (ps : List Param) : String :=
  ps.foldl (fun acc p => acc ++ p.Name ++ " " ++ p.Typ ++ ", ") ""

/-- One rendered stub, following the `stub` template (impl.go:890-894):
the comments block when non-empty, then the method declaration with a
`panic` body. -/
def renderStub (recv : String) (fn : Func) : String :=
  (if fn.Comments = "" then "" else fn.Comments) ++
  "func (" ++ recv ++ ") " ++ fn.Name ++
  "(" ++ renderParams fn.Params ++ ")" ++
  "(" ++ renderParams fn.Res ++ ")" ++
  "\x7b\npanic(\"not implemented\") // TODO: Implement\n\x7d\n\n"

/-- The receiver-variable extraction of `genStubs` (impl.go:905-908):
the first whitespace-separated field when there is more than one,
otherwise empty. -/
def recvNameOf (recv : String) : String :=
  match goFields recv with
  | r1 :: _ :: _ => r1
  | _ => ""

/-- The `fixParams` closure of `genStubs` (impl.go:911-917): a parameter
whose name equals the receiver variable name is renamed to `_`. -/
def fixParams (recvName : String) (ps : List Param) : List Param :=
  ps.map (fun p => if p.Name = recvName then Param.mk "_" p.Typ else p)

/-- A `Func` with `fixParams` applied to its parameters and results, as
`genStubs` prepares each method before rendering. -/
def fixFn (recvName : String) (fn : Func) : Func :=
  Func.mk fn.Name (fixParams recvName fn.Params) (fixParams recvName fn.Res)
    fn.Comments

/-- Embedding of `genStubs` (impl.go:904-936), producing the generated
buffer: methods whose names are in the implemented map are skipped;
the rest are rendered with receiver-variable capture avoidance.  The
final `format.Source` call is the external source-formatter collaborator
(spec §6) and is outside the embedding. -/
def genStubs (recv : String) (fns : List Func)
    (implemented : List String) : String :=
  let recvName := recvNameOf recv
  fns.foldl
    (fun buf fn =>
      if implemented.contains fn.Name then buf
      else buf ++ renderStub recv (fixFn recvName fn)) ""

/-- Unconditional stub rendering of a method list: the same loop as
`genStubs` with no implemented-set filtering.  Used to state what
`genStubs` renders. -/
def stubsAll (recv : String) (fns : List Func) : String :=
  fns.foldl (fun buf fn => buf ++ renderStub recv (fixFn (recvNameOf recv) fn)) ""

/-- What one interface entry contributes to the output of `funcs`: a
named method contributes exactly its reified signature, and an embedded
entry contributes exactly the method list of the recursively resolved
embedded interface. -/
def entryChunk (rec : String → Except String (List Func))
    (pkgName recvPkg : String) (binding : List (String × String))
    (comments : Bool) : IEntry → List Func → Prop
  | .method nm pfs rfs doc, c =>
    c = [funcsig pkgName recvPkg binding nm pfs rfs doc comments]
  | .embed t, c => rec (fullType pkgName recvPkg t) = .ok c

/-! ## Claim C1: generic arity matching in the declaration finder -/

/-- A scan over declarations none of which matches yields `none`: the
finder keeps scanning past mismatches instead of erroring. -/
lemma findTypeSpec_eq_none (specs : List TypeSpecE) (typ : TypeE)
    (h : ∀ s ∈ specs,
      s.name ≠ typ.ID ∨ matchTypeParams s.typeParams typ.Params = none) :
    findTypeSpec specs typ = none := by
  induction specs with
  | nil => rfl
  | cons s rest ih =>
    have hs := h s (List.mem_cons_self _ _)
    have hr : ∀ x ∈ rest,
        x.name ≠ typ.ID ∨ matchTypeParams x.typeParams typ.Params = none :=
      fun x hx => h x (List.mem_cons_of_mem _ hx)
    unfold findTypeSpec
    rcases hs with hname | hmatch
    · rw [if_neg hname]
      exact ih hr
    · by_cases hn : s.name = typ.ID
      · rw [if_pos hn, hmatch]
        exact ih hr
      · rw [if_neg hn]
        exact ih hr

/-- Claim C1, counterexample.  The claim says a declaration with no type
parameters matches only if no type arguments were supplied.  In the code,
`matchTypeParams` returns a successful (empty) binding whenever
`spec.TypeParams` is nil, regardless of the supplied arguments: locating
`Foo[string]` against a non-generic declaration `Foo` succeeds. -/
theorem c1_counterexample :
    matchTypeParams (TypeSpecE.mk "Foo" none .otherT).typeParams ["string"]
        = some [] ∧
    findTypeSpec [TypeSpecE.mk "Foo" none .otherT] (TypeE.mk "Foo" ["string"])
        = some (TypeSpecE.mk "Foo" none .otherT, []) := by
  constructor <;> rfl

/-- Claim C1, amended.  Locating a type declaration that *has* a
type-parameter list with N declared names succeeds exactly when exactly N
type-argument strings were supplied, and then produces a binding of size
N pairing declared names with arguments in order; a declaration with *no*
type-parameter list matches with an empty binding regardless of how many
arguments were supplied; a failed scan over all declarations yields a
`type not found` error, not a distinct arity error. -/
theorem c1_generic_arity :
    (∀ fields args b, matchTypeParams (some fields) args = some b →
        (fields.flatMap id).length = args.length ∧
        b = (fields.flatMap id).zip args ∧ b.length = args.length) ∧
    (∀ fields args, (fields.flatMap id).length = args.length →
        matchTypeParams (some fields) args
          = some ((fields.flatMap id).zip args)) ∧
    (∀ args, matchTypeParams none args = some []) ∧
    (∀ path specs typ,
        (∀ s ∈ specs,
          s.name ≠ typ.ID ∨ matchTypeParams s.typeParams typ.Params = none) →
        typeSpecE path specs typ
          = .error ("type " ++ typ.ID ++ " not found in " ++ path)) := by
  refine ⟨?_, ?_, ?_, ?_⟩
  · intro fields args b h
    unfold matchTypeParams at h
    simp only at h
    by_cases hlen : (fields.flatMap id).length = args.length
    · rw [if_neg (by simpa using hlen)] at h
      refine ⟨hlen, ?_, ?_⟩
      · exact (Option.some_injective _ h).symm
      · rw [← (Option.some_injective _ h), List.length_zip, hlen, Nat.min_self]
    · rw [if_pos (by simpa using hlen)] at h
      exact absurd h (by simp)
  · intro fields args hlen
    unfold matchTypeParams
    simp only
    rw [if_neg (by simpa using hlen)]
  · intro args
    rfl
  · intro path specs typ h
    unfold typeSpecE
    rw [findTypeSpec_eq_none specs typ h]

/-- Witness for C1: concrete application of the scan-failure conjunct. -/
theorem c1_generic_arity_witness :
    typeSpecE "p" [TypeSpecE.mk "Bar" (some [["T"]]) .otherT]
        (TypeE.mk "Foo" [])
      = .error ("type " ++ (TypeE.mk "Foo" []).ID ++ " not found in " ++ "p") :=
  c1_generic_arity.2.2.2 "p" [TypeSpecE.mk "Bar" (some [["T"]]) .otherT]
    (TypeE.mk "Foo" []) (by decide)

/-! ## Claim C2: round-trip qualification -/

/-- Every `Param` produced by a field shares the field's computed type
string. -/
lemma params_all_typ (t : String) (names : List String) :
    ∀ p ∈ (if (names.map (fun nm => Param.mk nm t)).isEmpty
           then [Param.mk "" t] else names.map (fun nm => Param.mk nm t)),
      p.Typ = t := by
  intro p hp
  cases names with
  | nil =>
    simp at hp
    rw [hp]
  | cons a rest =>
    simp at hp
    rcases hp with hp | ⟨nm, _, hp⟩
    · rw [hp]
    · rw [← hp]

/-- Claim C2, confirmed.  For an interface method parameter whose type is
a bare exported identifier that is not a bound type parameter (i.e. a
type declared in the interface's own package), the emitted type string is
`pkgName.Ident` when the receiver package name differs from the declaring
package name, and the bare `Ident` when the two coincide; a selector
expression already of the form `pkg.Type` is printed unchanged, never
doubly qualified. -/
theorem c2_roundtrip_qualification (pkgName recvPkg n : String)
    (tps : List (String × String)) (names : List String)
    (hex : isExported n = true) (htp : lookupTP tps n = none) :
    (recvPkg ≠ pkgName →
      ∀ p ∈ params pkgName recvPkg tps (FieldE.mk names (.ident n)),
        p.Typ = pkgName ++ "." ++ n) ∧
    (recvPkg = pkgName →
      ∀ p ∈ params pkgName recvPkg tps (FieldE.mk names (.ident n)),
        p.Typ = n) ∧
    (∀ x s, fullType pkgName recvPkg (.selector x s) = gofmt (.selector x s)) := by
  have hparams : params pkgName recvPkg tps (FieldE.mk names (.ident n))
      = (if (names.map
              (fun nm => Param.mk nm (fullType pkgName recvPkg (.ident n)))).isEmpty
         then [Param.mk "" (fullType pkgName recvPkg (.ident n))]
         else names.map
              (fun nm => Param.mk nm (fullType pkgName recvPkg (.ident n)))) := by
    simp [params, htp]
  refine ⟨?_, ?_, ?_⟩
  · intro hne p hp
    rw [hparams] at hp
    have hb : (isExported n && recvPkg != pkgName) = true := by
      rw [hex]
      simpa [bne_iff_ne] using hne
    have := params_all_typ (fullType pkgName recvPkg (.ident n)) names p hp
    rw [this]
    simp [fullType, qualifyExpr, hb, gofmt]
  · intro heq p hp
    rw [hparams] at hp
    have hb : (isExported n && recvPkg != pkgName) = false := by
      subst heq
      simp
    have := params_all_typ (fullType pkgName recvPkg (.ident n)) names p hp
    rw [this]
    simp [fullType, qualifyExpr, hb, gofmt]
  · intro x s
    rfl

/-- Witness for C2: `Handler` declared in package `http`, emitted for a
receiver in package `main` and for one in package `http`, and a selector
`io.Reader` left untouched. -/
theorem c2_roundtrip_qualification_witness :
    ((("main" : String) ≠ "http") ∧
      ∀ p ∈ params "http" "main" [] (FieldE.mk ["h"] (.ident "Handler")),
        p.Typ = "http" ++ "." ++ "Handler") ∧
    ∀ p ∈ params "http" "http" [] (FieldE.mk ["h"] (.ident "Handler")),
      p.Typ = "Handler" :=
  ⟨⟨by decide,
    (c2_roundtrip_qualification "http" "main" "Handler" [] ["h"]
      (by decide) (by decide)).1 (by decide)⟩,
    ((c2_roundtrip_qualification "http" "http" "Handler" [] ["h"]
      (by decide) (by decide)).2.1 rfl)⟩

/-! ## Claim C4: anonymous-parameter normalization -/

/-- The append-accumulating loops of `funcsig` compute a `flatMap`. -/
lemma foldl_append_eq_flatMap {α β : Type} (l : List α) (f : α → List β)
    (acc : List β) :
    l.foldl (fun a x => a ++ f x) acc = acc ++ l.flatMap f := by
  induction l generalizing acc with
  | nil => simp
  | cons x rest ih =>
    simp only [List.foldl_cons, List.flatMap_cons, ih, List.append_assoc]

/-- Claim C4, confirmed.  In a reified method signature, every parameter
carries a non-empty name — a parameter field with no name in the source
interface is emitted under the placeholder `_` — whereas result fields
are reified without renaming, so a nameless result stays nameless. -/
theorem c4_anonymous_param_normalization (pkgName recvPkg : String)
    (tps : List (String × String)) (name : String)
    (pfs rfs : List FieldE) (doc : Option (List String)) (comments : Bool) :
    (∀ p ∈ (funcsig pkgName recvPkg tps name pfs rfs doc comments).Params,
        p.Name ≠ "") ∧
    ((funcsig pkgName recvPkg tps name pfs rfs doc comments).Params
        = pfs.flatMap (fun f => (params pkgName recvPkg tps f).map
            (fun p => if p.Name = "" then Param.mk "_" p.Typ else p))) ∧
    ((funcsig pkgName recvPkg tps name pfs rfs doc comments).Res
        = rfs.flatMap (params pkgName recvPkg tps)) ∧
    (∀ f : FieldE, f.names = [] →
        (params pkgName recvPkg tps f).map Param.Name = [""]) := by
  have hps : (funcsig pkgName recvPkg tps name pfs rfs doc comments).Params
      = pfs.flatMap (fun f => (params pkgName recvPkg tps f).map
          (fun p => if p.Name = "" then Param.mk "_" p.Typ else p)) := by
    simp [funcsig]
    rw [foldl_append_eq_flatMap]
    simp
  refine ⟨?_, hps, ?_, ?_⟩
  · intro p hp
    rw [hps] at hp
    simp only [List.mem_flatMap, List.mem_map] at hp
    rcases hp with ⟨f, _, q, _, hq⟩
    by_cases hqn : q.Name = ""
    · rw [← hq]
      simp [hqn]
    · rw [← hq]
      simp [hqn]
  · simp [funcsig]
    rw [foldl_append_eq_flatMap]
    simp
  · intro f hf
    cases f with
    | mk fnames ftyp =>
      simp at hf
      subst hf
      simp [params]

/-- Witness for C4: an anonymous parameter/result field reifies to a
single nameless entry (which the parameter side then renames to `_`). -/
theorem c4_anonymous_param_normalization_witness :
    (params "p" "q" [] (FieldE.mk [] (.ident "int"))).map Param.Name = [""] :=
  (c4_anonymous_param_normalization "p" "q" [] "M" [] [] none false).2.2.2
    (FieldE.mk [] (.ident "int")) rfl

/-! ## Claim C5: the built-in error interface -/

/-- Claim C5, confirmed.  `funcs` answers the reference `error` before any
resolution: for every environment (i.e. without consulting any search
directory or disk lookup), every fuel, and all `srcDir`, `recvPkg` and
`comments` arguments, it returns exactly one method, `Error`, with no
parameters and a single unnamed `string` result. -/
theorem c5_error_interface :
    (∀ (env : String → String → Except String Resolved) (fuel : Nat)
        (srcDir recvPkg : String) (comments : Bool),
      funcs env fuel "error" srcDir recvPkg comments = .ok errorInterface) ∧
    errorInterface = [Func.mk "Error" [] [Param.mk "" "string"] ""] := by
  constructor
  · intro env fuel srcDir recvPkg comments
    cases fuel <;> simp [funcs]
  · rfl

/-! ## Claim C7: shape errors -/

/-- Claim C7, confirmed.  When the located declaration's underlying type
is not an interface, `funcs` fails with `not an interface`; when it is an
interface whose method list is nil, `funcs` fails with `empty interface`;
in both cases the result is an error, not a method list. -/
theorem c7_shape_errors (env : String → String → Except String Resolved)
    (fuel : Nat) (iface srcDir recvPkg : String) (comments : Bool)
    (r : Resolved) (hif : iface ≠ "error")
    (henv : env iface srcDir = .ok r) :
    (r.specType = .otherT →
      funcs env (fuel + 1) iface srcDir recvPkg comments
        = .error ("not an interface: " ++ iface)) ∧
    (r.specType = .ifaceT none →
      funcs env (fuel + 1) iface srcDir recvPkg comments
        = .error ("empty interface: " ++ iface)) := by
  constructor <;> intro hspec <;> simp [funcs, hif, henv, hspec]

/-- Witness for C7: a concrete environment that resolves `I` to a
non-interface declaration. -/
theorem c7_shape_errors_witness :
    funcs (fun _ _ => .ok (Resolved.mk "p" [] .otherT)) 1 "I" "" "q" false
      = .error ("not an interface: " ++ "I") :=
  (c7_shape_errors (fun _ _ => .ok (Resolved.mk "p" [] .otherT)) 0 "I" "" "q"
    false (Resolved.mk "p" [] .otherT) (by decide) rfl).1 rfl

/-! ## Claim C3: order preservation with in-place embedding expansion -/

/-- The collection loop of `funcs` concatenates, in declaration order,
exactly the contribution of each entry onto the accumulator. -/
lemma funcsLoop_chunks (rec : String → Except String (List Func))
    (pkgName recvPkg : String) (binding : List (String × String))
    (comments : Bool) :
    ∀ (entries : List IEntry) (acc out : List Func),
    funcsLoop rec pkgName recvPkg binding comments entries acc = .ok out →
    ∃ chunks : List (List Func),
      chunks.length = entries.length ∧
      out = acc ++ chunks.flatten ∧
      ∀ i (hi : i < entries.length) (hc : i < chunks.length),
        entryChunk rec pkgName recvPkg binding comments
          (entries.get ⟨i, hi⟩) (chunks.get ⟨i, hc⟩) := by
  intro entries
  induction entries with
  | nil =>
    intro acc out h
    refine ⟨[], rfl, ?_, ?_⟩
    · simp only [funcsLoop] at h
      cases h
      simp
    · intro i hi
      exact absurd hi (Nat.not_lt_zero i)
  | cons e rest ih =>
    intro acc out h
    cases e with
    | embed t =>
      unfold funcsLoop at h
      cases hrec : rec (fullType pkgName recvPkg t) with
      | error msg =>
        rw [hrec] at h
        exact absurd h (by simp)
      | ok embedded =>
        rw [hrec] at h
        rcases ih (acc ++ embedded) out h with ⟨chunks, hlen, hout, hget⟩
        refine ⟨embedded :: chunks, by simp [hlen], ?_, ?_⟩
        · rw [hout]
          simp [List.append_assoc]
        · intro i hi hc
          cases i with
          | zero => simpa [entryChunk] using hrec
          | succ j =>
            simpa using hget j (by simpa using hi) (by simpa using hc)
    | method nm pfs rfs doc =>
      unfold funcsLoop at h
      rcases ih (acc ++ [funcsig pkgName recvPkg binding nm pfs rfs doc comments])
          out h with ⟨chunks, hlen, hout, hget⟩
      refine ⟨[funcsig pkgName recvPkg binding nm pfs rfs doc comments] :: chunks,
        by simp [hlen], ?_, ?_⟩
      · rw [hout]
        simp [List.append_assoc]
      · intro i hi hc
        cases i with
        | zero => simp [entryChunk]
        | succ j =>
          simpa using hget j (by simpa using hi) (by simpa using hc)

/-- Claim C3, confirmed.  For every resolvable interface, the method list
produced by `funcs` is the in-order concatenation of one chunk per
declaration entry: a named method's chunk is its own signature alone, and
an embedded interface's chunk is its recursively resolved (flattened)
method list, spliced at the embed's position — never hoisted to the front
or back, never nested. -/
theorem c3_order_preservation (env : String → String → Except String Resolved)
    (fuel : Nat) (iface srcDir recvPkg : String) (comments : Bool)
    (r : Resolved) (entries : List IEntry) (fns : List Func)
    (hif : iface ≠ "error")
    (henv : env iface srcDir = .ok r)
    (hspec : r.specType = .ifaceT (some entries))
    (hrun : funcs env (fuel + 1) iface srcDir recvPkg comments = .ok fns) :
    ∃ chunks : List (List Func),
      chunks.length = entries.length ∧
      fns = chunks.flatten ∧
      ∀ i (hi : i < entries.length) (hc : i < chunks.length),
        entryChunk (fun s => funcs env fuel s srcDir recvPkg comments)
          r.pkgName recvPkg r.binding comments
          (entries.get ⟨i, hi⟩) (chunks.get ⟨i, hc⟩) := by
  have hloop : funcsLoop (fun s => funcs env fuel s srcDir recvPkg comments)
      r.pkgName recvPkg r.binding comments entries [] = .ok fns := by
    simpa [funcs, hif, henv, hspec] using hrun
  rcases funcsLoop_chunks _ _ _ _ _ entries [] fns hloop with ⟨chunks, h1, h2, h3⟩
  exact ⟨chunks, h1, by simpa using h2, h3⟩

/-- Witness for C3: an interface `p.I` declaring method `A`, then an
embedded interface `J` (whose single method is `C`), then method `B`;
`funcs` yields `[A, C, B]`, decomposed as the chunks `[A] [C] [B]`. -/
theorem c3_order_preservation_witness :
    ∃ chunks : List (List Func),
      chunks.length
          = ([IEntry.method "A" [] [] none, IEntry.embed (.ident "J"),
              IEntry.method "B" [] [] none] : List IEntry).length ∧
      [Func.mk "A" [] [] "", Func.mk "C" [] [] "", Func.mk "B" [] [] ""]
          = chunks.flatten ∧
      ∀ i (hi : i < ([IEntry.method "A" [] [] none, IEntry.embed (.ident "J"),
              IEntry.method "B" [] [] none] : List IEntry).length)
          (hc : i < chunks.length),
        entryChunk
          (fun s => funcs
            (fun i _ =>
              if i = "p.I" then
                .ok (Resolved.mk "p" []
                  (.ifaceT (some [IEntry.method "A" [] [] none,
                    IEntry.embed (.ident "J"), IEntry.method "B" [] [] none])))
              else if i = "p.J" then
                .ok (Resolved.mk "p" [] (.ifaceT (some [IEntry.method "C" [] [] none])))
              else .error "nf")
            2 s "" "q" false)
          "p" "q" [] false
          (([IEntry.method "A" [] [] none, IEntry.embed (.ident "J"),
              IEntry.method "B" [] [] none] : List IEntry).get ⟨i, hi⟩)
          (chunks.get ⟨i, hc⟩) :=
  c3_order_preservation
    (fun i _ =>
      if i = "p.I" then
        .ok (Resolved.mk "p" []
          (.ifaceT (some [IEntry.method "A" [] [] none,
            IEntry.embed (.ident "J"), IEntry.method "B" [] [] none])))
      else if i = "p.J" then
        .ok (Resolved.mk "p" [] (.ifaceT (some [IEntry.method "C" [] [] none])))
      else .error "nf")
    2 "p.I" "" "q" false
    (Resolved.mk "p" []
      (.ifaceT (some [IEntry.method "A" [] [] none,
        IEntry.embed (.ident "J"), IEntry.method "B" [] [] none])))
    [IEntry.method "A" [] [] none, IEntry.embed (.ident "J"),
      IEntry.method "B" [] [] none]
    [Func.mk "A" [] [] "", Func.mk "C" [] [] "", Func.mk "B" [] [] ""]
    (by decide) rfl rfl rfl

/-! ## Claim C8: implemented-method detection by receiver base name -/

/-- Claim C8, code bug.  The claim — and the repository's own tests
(`TestStubGenerationForImplemented` with `testdata.Interface4GenericOutput`)
— require a generic receiver `T[X]` to be matched by its base name `T`.
The code cannot do this: the user-side extraction keeps the bracket
suffix (`ImplementedGeneric[Type1]`), the AST-side extraction yields `""`
for any generic (`ast.IndexExpr`) receiver, so a method implemented on a
generic receiver is never detected (the map stays empty and the stub is
re-emitted); and a multi-parameter generic receiver string is rejected
outright by `fatal`, because its bracket list contains a space and the
single-space split yields three parts. -/
theorem c8_generic_receiver_detection :
    implementedFuncs [Func.mk "Method1" [] [] ""] "r *ImplementedGeneric[Type1]"
        [FuncDeclE.mk "Method1"
          (some (.starR (.indexR (.identR "ImplementedGeneric") "Type1")))]
      = some [] ∧
    getReceiverType "r *ImplementedGeneric[Type1]"
      = some "ImplementedGeneric[Type1]" ∧
    getReceiver (some (.starR (.indexR (.identR "ImplementedGeneric") "Type1")))
      = "" ∧
    getReceiverType "r *ImplementedGenericMultipleParams[Type1, Type2]" = none ∧
    implementedFuncs [Func.mk "Method1" [] [] ""] "r *Implemented"
        [FuncDeclE.mk "Method1" (some (.starR (.identR "Implemented")))]
      = some ["Method1"] := by
  refine ⟨?_, ?_, ?_, ?_, ?_⟩ <;> rfl

/-! ## Claim C9: idempotent exclusion of implemented methods -/

/-- The skipping loop of `genStubs` renders exactly the methods whose
names are absent from the implemented map. -/
lemma genStubs_foldl_filter (recv : String) (impl : List String) :
    ∀ (fns : List Func) (buf : String),
    fns.foldl
        (fun b fn =>
          if impl.contains fn.Name then b
          else b ++ renderStub recv (fixFn (recvNameOf recv) fn)) buf
      = (fns.filter (fun fn => !(impl.contains fn.Name))).foldl
          (fun b fn => b ++ renderStub recv (fixFn (recvNameOf recv) fn)) buf := by
  intro fns
  induction fns with
  | nil => intro buf; rfl
  | cons fn rest ih =>
    intro buf
    simp only [List.foldl_cons, List.filter_cons]
    by_cases h : impl.contains fn.Name
    · rw [if_pos h, if_neg (by rw [h]; decide), ih]
    · have hf : impl.contains fn.Name = false := by simpa using h
      rw [if_neg h, if_pos (by rw [hf]; decide), List.foldl_cons, ih]

/-- Claim C9, confirmed.  `genStubs` renders exactly the methods whose
names are absent from the implemented map — a name present in the map
contributes no declaration to the stub text — and no rendered method's
name lies in the implemented map. -/
theorem c9_idempotent_exclusion (recv : String) (fns : List Func)
    (implemented : List String) :
    genStubs recv fns implemented
        = stubsAll recv
            (fns.filter (fun fn => !(implemented.contains fn.Name))) ∧
    ∀ fn ∈ fns.filter (fun fn => !(implemented.contains fn.Name)),
      implemented.contains fn.Name = false := by
  constructor
  · simp only [genStubs, stubsAll]
    exact genStubs_foldl_filter recv implemented fns ""
  · intro fn hfn
    have := List.of_mem_filter hfn
    simpa using this

/-- Witness for C9: with `M1` implemented, the generated text is the
rendering of the filtered list — `M2` alone. -/
theorem c9_idempotent_exclusion_witness :
    genStubs "r *T" [Func.mk "M1" [] [] "", Func.mk "M2" [] [] ""] ["M1"]
      = stubsAll "r *T"
          ([Func.mk "M1" [] [] "", Func.mk "M2" [] [] ""].filter
            (fun fn => !((["M1"] : List String).contains fn.Name))) :=
  (c9_idempotent_exclusion "r *T"
    [Func.mk "M1" [] [] "", Func.mk "M2" [] [] ""] ["M1"]).1

/-! ## Claim C10: receiver-variable capture avoidance -/

/-- Claim C10, confirmed.  When the receiver expression carries a variable
name (two whitespace-separated tokens), `genStubs` renders every method
with `fixParams` applied to both parameters and results under that
variable name, and an emitted parameter or result can only retain the
receiver variable's name when that name is itself the blank identifier
`_`. -/
theorem c10_receiver_capture_avoidance (recv v t : String)
    (fns : List Func) (implemented : List String)
    (hfields : goFields recv = [v, t]) :
    recvNameOf recv = v ∧
    genStubs recv fns implemented
        = (fns.filter (fun fn => !(implemented.contains fn.Name))).foldl
            (fun buf fn => buf ++ renderStub recv (fixFn v fn)) "" ∧
    (∀ ps : List Param, ∀ p ∈ fixParams v ps, p.Name = v → v = "_") := by
  have hname : recvNameOf recv = v := by
    simp [recvNameOf, hfields]
  refine ⟨hname, ?_, ?_⟩
  · simp only [genStubs]
    rw [genStubs_foldl_filter recv implemented fns "", hname]
  · intro ps p hp hpv
    simp only [fixParams, List.mem_map] at hp
    rcases hp with ⟨q, _, hq⟩
    by_cases hqv : q.Name = v
    · rw [← hq] at hpv
      simp [hqv] at hpv
      exact hpv.symm
    · rw [← hq, if_neg hqv] at hpv
      exact absurd hpv hqv

/-- Witness for C10: receiver `r *T` has variable name `r`; a parameter
named `r` is renamed. -/
theorem c10_receiver_capture_avoidance_witness :
    recvNameOf "r *T" = "r" ∧
    genStubs "r *T" [Func.mk "M" [Param.mk "r" "int"] [] ""] []
        = ([Func.mk "M" [Param.mk "r" "int"] [] ""].filter
            (fun fn => !(([] : List String).contains fn.Name))).foldl
            (fun buf fn => buf ++ renderStub "r *T" (fixFn "r" fn)) "" ∧
    (∀ ps : List Param, ∀ p ∈ fixParams "r" ps, p.Name = "r" → "r" = "_") :=
  c10_receiver_capture_avoidance "r *T" "r" "*T"
    [Func.mk "M" [Param.mk "r" "int"] [] ""] [] (by rfl)

/-! ## Claim C6: qualified-path rejection in findInterface -/

/-- One-step unfolding of `lastIdx` on a cons cell. -/
lemma lastIdx_cons (a : Char) (rest : List Char) (c : Char) :
    lastIdx (a :: rest) c =
      if 0 ≤ lastIdx rest c then lastIdx rest c + 1
      else if a = c then 0 else -1 := rfl

/-- The index `lastIdx cs c` never lies below `-1`. -/
lemma lastIdx_lb (cs : List Char) (c : Char) : -1 ≤ lastIdx cs c := by
  induction cs with
  | nil => simp [lastIdx]
  | cons a rest ih =>
    rw [lastIdx_cons]
    by_cases hr : 0 ≤ lastIdx rest c
    · rw [if_pos hr]
      omega
    · rw [if_neg hr]
      by_cases hac : a = c <;> simp [hac]

/-- The index `lastIdx cs c` is non-negative exactly when the character occurs. -/
lemma lastIdx_nonneg_iff (cs : List Char) (c : Char) :
    0 ≤ lastIdx cs c ↔ c ∈ cs := by
  induction cs with
  | nil => simp [lastIdx]
  | cons a rest ih =>
    rw [lastIdx_cons]
    by_cases hr : 0 ≤ lastIdx rest c
    · rw [if_pos hr]
      simp only [List.mem_cons]
      constructor
      · intro _
        exact Or.inr (ih.mp hr)
      · intro _
        omega
    · rw [if_neg hr]
      by_cases hac : a = c
      · simp [hac]
      · rw [if_neg hac]
        simp only [List.mem_cons]
        constructor
        · intro h
          omega
        · intro h
          rcases h with h | h
          · exact absurd h.symm (fun hh => hac hh)
          · exact absurd (ih.mpr h) hr

/-- The equation `lastIdx cs c + 1 = cs.length` holds exactly when `c` is the
last character of the non-empty list `cs`. -/
lemma lastIdx_last_iff (cs : List Char) (c : Char) (hne : cs ≠ []) :
    lastIdx cs c + 1 = (cs.length : Int) ↔ cs.getLast? = some c := by
  induction cs with
  | nil => exact absurd rfl hne
  | cons a rest ih =>
    cases rest with
    | nil =>
      rw [lastIdx_cons]
      simp only [List.length_cons, List.length_nil, List.getLast?_singleton]
      rw [if_neg (by simp [lastIdx])]
      by_cases hac : a = c
      · simp [hac]
      · rw [if_neg hac]
        simp only [Option.some_inj]
        constructor
        · intro h
          omega
        · intro h
          exact absurd h hac
    | cons b rest2 =>
      have hne2 : b :: rest2 ≠ [] := by simp
      have ihr := ih hne2
      rw [lastIdx_cons, List.getLast?_cons_cons]
      have hlb := lastIdx_lb (b :: rest2) c
      by_cases hr : 0 ≤ lastIdx (b :: rest2) c
      · rw [if_pos hr]
        rw [← ihr]
        simp only [List.length_cons]
        push_cast
        omega
      · rw [if_neg hr]
        rw [← ihr]
        have hlen : (0 : Int) ≤ ((b :: rest2).length : Int) := by positivity
        by_cases hac : a = c
        · rw [if_pos hac]
          simp only [List.length_cons]
          push_cast
          omega
        · rw [if_neg hac]
          simp only [List.length_cons]
          push_cast
          omega

/-- When non-negative, `lastIdx` points at an occurrence of the
character. -/
lemma lastIdx_get (cs : List Char) (c : Char) (h : 0 ≤ lastIdx cs c) :
    cs.get? (lastIdx cs c).toNat = some c := by
  induction cs with
  | nil => simp [lastIdx] at h
  | cons a rest ih =>
    rw [lastIdx_cons] at h ⊢
    by_cases hr : 0 ≤ lastIdx rest c
    · rw [if_pos hr] at h ⊢
      have heq : ((lastIdx rest c) + 1).toNat = (lastIdx rest c).toNat + 1 := by
        omega
      rw [heq]
      simpa using ih hr
    · rw [if_neg hr] at h ⊢
      by_cases hac : a = c
      · rw [if_pos hac]
        simp [hac]
      · rw [if_neg hac] at h ⊢
        omega

/-- No occurrence of the character lies strictly after `lastIdx`. -/
lemma lastIdx_after (cs : List Char) (c : Char) :
    ∀ j : Nat, lastIdx cs c < (j : Int) → cs.get? j ≠ some c := by
  induction cs with
  | nil =>
    intro j _
    simp
  | cons a rest ih =>
    intro j hj
    cases j with
    | zero =>
      simp only [Nat.cast_zero] at hj
      simp only [List.get?_cons_zero]
      intro hsome
      have hac : a = c := Option.some.inj hsome
      have : 0 ≤ lastIdx (a :: rest) c := by
        rw [lastIdx_cons]
        by_cases hr : 0 ≤ lastIdx rest c
        · rw [if_pos hr]
          omega
        · rw [if_neg hr, if_pos hac]
      omega
    | succ k =>
      simp only [List.get?_cons_succ]
      apply ih
      have hlb := lastIdx_lb rest c
      rw [lastIdx_cons] at hj
      by_cases hr : 0 ≤ lastIdx rest c
      · rw [if_pos hr] at hj
        push_cast at hj ⊢
        omega
      · push_cast at hj ⊢
        omega

/-- Claim C6, counterexample.  The claim states that every reference
containing `/` that does not end in `/` or `.` and has a `.` after the
last `/` is split at the last `.`.  The input `a b/c.D` satisfies all of
that, yet `findInterface` rejects it: the initial well-formedness guard
(more than one whitespace-separated token and no `[`) fires before the
slash branch is reached, so no split happens. -/
theorem c6_counterexample :
    (('/' ∈ "a b/c.D".data) ∧
      "a b/c.D".data.getLast? ≠ some '/' ∧
      "a b/c.D".data.getLast? ≠ some '.' ∧
      ("a b/c.D".data.drop (lastIdx "a b/c.D".data '/').toNat).count '.' ≠ 0) ∧
    findInterface (fun s => .ok (TypeE.mk s [])) (fun _ _ => .error "gi")
        "a b/c.D" ""
      = .error ("couldn\x27t parse interface: " ++ "a b/c.D") := by
  refine ⟨⟨?_, ?_, ?_, ?_⟩, ?_⟩
  · decide
  · decide
  · decide
  · decide
  · rfl

/-- Claim C6, amended.  For every interface reference containing `/` that
passes the initial well-formedness guard (a single whitespace-separated
token, or a token containing `[`), `findInterface` returns a parse error
— without consulting the goimports-based lookup, for any reference
containing `/` — when the reference ends with `/`, or ends with `.`, or
contains no `.` at or after the last `/`; otherwise it splits the
reference at the last `.` into the import path (everything before it)
and the type reference (everything after it, handed to `parseType`). -/
theorem c6_qualified_path_rejection
    (pt : String → Except String TypeE)
    (gi gi2 : String → String → Except String (String × TypeE))
    (input srcDir : String)
    (hslash : '/' ∈ input.data)
    (hwf : (goFields input).length = 1 ∨ '[' ∈ input.data) :
    (findInterface pt gi input srcDir = findInterface pt gi2 input srcDir) ∧
    (input.data.getLast? = some '/' →
      findInterface pt gi input srcDir
        = .error ("interface name cannot end with a \x27/\x27 character: " ++ input)) ∧
    (input.data.getLast? ≠ some '/' → input.data.getLast? = some '.' →
      findInterface pt gi input srcDir
        = .error ("interface name cannot end with a \x27.\x27 character: " ++ input)) ∧
    (input.data.getLast? ≠ some '/' → input.data.getLast? ≠ some '.' →
      (input.data.drop (lastIdx input.data '/').toNat).count '.' = 0 →
      findInterface pt gi input srcDir
        = .error ("invalid interface name: " ++ input)) ∧
    (input.data.getLast? ≠ some '/' → input.data.getLast? ≠ some '.' →
      (input.data.drop (lastIdx input.data '/').toNat).count '.' ≠ 0 →
      ∃ d : Nat, lastIdx input.data '.' = (d : Int) ∧
        input.data.get? d = some '.' ∧
        (∀ j : Nat, d < j → input.data.get? j ≠ some '.') ∧
        findInterface pt gi input srcDir
          = (pt (String.mk (input.data.drop (d + 1)))).map
              (fun t => (String.mk (input.data.take d), t))) := by
  have hne : input.data ≠ [] := by
    intro h
    rw [h] at hslash
    exact absurd hslash (List.not_mem_nil _)
  have hlen : input.length = input.data.length := rfl
  have hsl : 0 ≤ lastIdx input.data '/' := (lastIdx_nonneg_iff _ _).mpr hslash
  have hguard : ((goFields input).length != 1 && !(input.data.contains '[')) = false := by
    rcases hwf with h1 | h1
    · simp [h1]
    · have hc : input.data.contains '[' = true := List.elem_eq_true_of_mem h1
      rw [hc]
      simp
  have hslpos : lastIdx input.data '/' > -1 := by omega
  refine ⟨?_, ?_, ?_, ?_, ?_⟩
  · unfold findInterface
    rw [hguard]
    simp only [Bool.false_eq_true, if_false]
    rw [if_pos hslpos, if_pos hslpos]
  · intro hlast
    have hend : lastIdx input.data '/' + 1 = (input.length : Int) := by
      rw [hlen]
      exact (lastIdx_last_iff _ _ hne).mpr hlast
    unfold findInterface
    rw [hguard]
    simp only [Bool.false_eq_true, if_false]
    rw [if_pos hslpos, if_pos hend]
  · intro hnotsl hlast
    have hend1 : ¬ (lastIdx input.data '/' + 1 = (input.length : Int)) := by
      rw [hlen]
      intro h
      exact hnotsl ((lastIdx_last_iff _ _ hne).mp h)
    have hend2 : lastIdx input.data '.' + 1 = (input.length : Int) := by
      rw [hlen]
      exact (lastIdx_last_iff _ _ hne).mpr hlast
    unfold findInterface
    rw [hguard]
    simp only [Bool.false_eq_true, if_false]
    rw [if_pos hslpos, if_neg hend1, if_pos hend2]
  · intro hnotsl hnotdot hcount
    have hend1 : ¬ (lastIdx input.data '/' + 1 = (input.length : Int)) := by
      rw [hlen]
      intro h
      exact hnotsl ((lastIdx_last_iff _ _ hne).mp h)
    have hend2 : ¬ (lastIdx input.data '.' + 1 = (input.length : Int)) := by
      rw [hlen]
      intro h
      exact hnotdot ((lastIdx_last_iff _ _ hne).mp h)
    unfold findInterface
    rw [hguard]
    simp only [Bool.false_eq_true, if_false]
    rw [if_pos hslpos, if_neg hend1, if_neg hend2, if_pos hcount]
  · intro hnotsl hnotdot hcount
    have hend1 : ¬ (lastIdx input.data '/' + 1 = (input.length : Int)) := by
      rw [hlen]
      intro h
      exact hnotsl ((lastIdx_last_iff _ _ hne).mp h)
    have hend2 : ¬ (lastIdx input.data '.' + 1 = (input.length : Int)) := by
      rw [hlen]
      intro h
      exact hnotdot ((lastIdx_last_iff _ _ hne).mp h)
    have hdotmem : '.' ∈ input.data := by
      rcases List.count_pos_iff.mp (Nat.pos_of_ne_zero hcount) with hmem
      exact List.mem_of_mem_drop hmem
    have hdot : 0 ≤ lastIdx input.data '.' := (lastIdx_nonneg_iff _ _).mpr hdotmem
    refine ⟨(lastIdx input.data '.').toNat, by omega, lastIdx_get _ _ hdot, ?_, ?_⟩
    · intro j hj
      apply lastIdx_after
      omega
    · unfold findInterface
      rw [hguard]
      simp only [Bool.false_eq_true, if_false]
      rw [if_pos hslpos, if_neg hend1, if_neg hend2, if_neg (fun h => hcount h)]
      cases hpt : pt (String.mk (input.data.drop ((lastIdx input.data '.').toNat + 1))) with
      | error e => simp [hpt, Except.map]
      | ok t => simp [hpt, Except.map]

/-- Witness for C6: `net/http.ResponseWriter` is split at the last `.`
into `net/http` and `ResponseWriter`. -/
theorem c6_qualified_path_rejection_witness :
    ∃ d : Nat, lastIdx "net/http.ResponseWriter".data '.' = (d : Int) ∧
      "net/http.ResponseWriter".data.get? d = some '.' ∧
      (∀ j : Nat, d < j → "net/http.ResponseWriter".data.get? j ≠ some '.') ∧
      findInterface (fun s => .ok (TypeE.mk s [])) (fun _ _ => .error "gi")
          "net/http.ResponseWriter" ""
        = (((fun s => .ok (TypeE.mk s [])) : String → Except String TypeE)
              (String.mk ("net/http.ResponseWriter".data.drop (d + 1)))).map
            (fun t => (String.mk ("net/http.ResponseWriter".data.take d), t)) :=
  (c6_qualified_path_rejection (fun s => .ok (TypeE.mk s []))
      (fun _ _ => .error "gi") (fun _ _ => .error "gi")
      "net/http.ResponseWriter" "" (by decide) (Or.inl (by decide))).2.2.2.2
    (by decide) (by decide) (by decide)

end Impl
